import Mathlib

/-!
Verification of the uncertainty-weighted multi-task loss example
(`examples/uncertainty_weighted_loss.ipynb` of torchMTL).

The notebook's numeric code works on real-valued tensors.  We embed the
1-D and 2-D tensors that appear in the notebook as length/shape-carrying
structures over `ℝ`, embed PyTorch/NumPy broadcasting on them, and
translate the notebook's functions (`gen_data`, `shuffle_data`,
`MultiTaskLossWrapper`, and the loss-accumulation loop of the training
cell) into Lean definitions.  Randomness (`np.random.randn`,
`np.random.shuffle`) is an external collaborator; it is modelled by an
explicitly passed stream of draws `g : ℕ → ℝ` with a position counter,
respectively an explicitly passed row permutation.
-/

noncomputable section

/-- A 1-D tensor: a length and a (total) entry function.  Entries at
indices `≥ len` are junk and never inspected by the embedded operations. -/
structure Tensor1 where
  len : ℕ
  entry : ℕ → ℝ

/-- A 2-D tensor: a shape `(rows, cols)` and a (total) entry function. -/
structure Tensor2 where
  rows : ℕ
  cols : ℕ
  entry : ℕ → ℕ → ℝ

instance : Inhabited Tensor2 := ⟨⟨0, 0, fun _ _ => 0⟩⟩

/-- PyTorch/NumPy broadcasting of a single dimension: two sizes are
compatible iff they are equal or one of them is `1`; otherwise the
operation raises (modelled as `none`). -/
def bdim (a b : ℕ) : Option ℕ :=
  if a = b then some a
  else if a = 1 then some b
  else if b = 1 then some a
  else none

/-- The source index used when a dimension of size `n` is broadcast:
a size-1 dimension is repeated (always index 0). -/
def bidx (n i : ℕ) : ℕ := if n = 1 then 0 else i

/-- Elementwise binary operation on 2-D tensors with PyTorch/NumPy
broadcasting semantics; `none` models the runtime shape error. -/
def bcast (f : ℝ → ℝ → ℝ) (A B : Tensor2) : Option Tensor2 :=
  match bdim A.rows B.rows, bdim A.cols B.cols with
  | some r, some c =>
      some ⟨r, c, fun i j =>
        f (A.entry (bidx A.rows i) (bidx A.cols j))
          (B.entry (bidx B.rows i) (bidx B.cols j))⟩
  | _, _ => none

/-- Broadcasting subtraction, `y_hat[i] - y[i]` in the notebook. -/
def tsub (A B : Tensor2) : Option Tensor2 := bcast (fun x y => x - y) A B

/-- Broadcasting addition, used by `gen_data` for `... + sigma * noise`. -/
def tadd (A B : Tensor2) : Option Tensor2 := bcast (fun x y => x + y) A B

/-- Elementwise square, `diff = (...)**2.` in the notebook. -/
def tsq (A : Tensor2) : Tensor2 := ⟨A.rows, A.cols, fun i j => (A.entry i j) ^ 2⟩

/-- Scalar multiply (used for `X.dot(w)` with scalar `w`, and for
`sigma * noise`); a scalar broadcasts against any shape. -/
def smulT (c : ℝ) (A : Tensor2) : Tensor2 := ⟨A.rows, A.cols, fun i j => c * A.entry i j⟩

/-- Scalar add (used for `... + b` with scalar `b`). -/
def saddT (c : ℝ) (A : Tensor2) : Tensor2 := ⟨A.rows, A.cols, fun i j => A.entry i j + c⟩

/-- Affine map `p * a + c` applied elementwise: `precision * diff + log_vars[i]`
in the training loop (both `precision` and `log_vars[i]` are scalars and
broadcast against `diff`). -/
def scaleAdd (p c : ℝ) (A : Tensor2) : Tensor2 :=
  ⟨A.rows, A.cols, fun i j => p * A.entry i j + c⟩

/-- Reduction over the last dimension, `torch.sum(t, -1)`: a 2-D tensor of
shape `(r, c)` becomes a 1-D tensor of length `r`. -/
def sumLast (A : Tensor2) : Tensor1 :=
  ⟨A.rows, fun i => ∑ j in Finset.range A.cols, A.entry i j⟩

/-- Broadcasting addition of 1-D tensors, modelling `loss += ...` where the
accumulator starts as the scalar `0` (a length-1 tensor here). -/
def vaddB (u v : Tensor1) : Option Tensor1 :=
  match bdim u.len v.len with
  | some n => some ⟨n, fun i => u.entry (bidx u.len i) + v.entry (bidx v.len i)⟩
  | none => none

/-- Mean of a 1-D tensor, `torch.mean(loss)`. -/
def tmean (v : Tensor1) : ℝ := (∑ i in Finset.range v.len, v.entry i) / (v.len : ℝ)

/-- Indexing a 1-D tensor, `log_vars[i]`; out-of-range indexing raises in
PyTorch, modelled as `none`. -/
def tidx (v : Tensor1) (i : ℕ) : Option ℝ :=
  if i < v.len then some (v.entry i) else none

/-- The per-task weight of the training loop,
`precision = torch.exp(-log_vars[i])`. -/
def precision (lv : ℝ) : ℝ := Real.exp (-lv)

/-- A fresh all-zeros 1-D tensor, `torch.zeros((num_tasks))`. -/
def torchZeros (n : ℕ) : Tensor1 := ⟨n, fun _ => 0⟩

/-- The dimensionality globals the notebook sets before calling `gen_data`:
`input_size = 1`, `output1_size = 1`, `output2_size = 1`. -/
def input_size : ℕ := 1

/-- Output dimensionality of the first task head. -/
def output1_size : ℕ := 1

/-- Output dimensionality of the second task head. -/
def output2_size : ℕ := 1

/-- One call `np.random.randn(rows, cols)`: it consumes `rows * cols`
fresh draws from the abstract standard-normal stream `g`, starting at
position `k`, filling the array in row-major order, and advances the
stream position.  That the draws are i.i.d. standard normal is a property
of the external random source, carried by the interpretation of `g`. -/
def np_randn (g : ℕ → ℝ) (k : ℕ) (rows cols : ℕ) : Tensor2 × ℕ :=
  (⟨rows, cols, fun i j => g (k + i * cols + j)⟩, k + rows * cols)

/-- The notebook's data generator:
`X = np.random.randn(N, input_size)`,
`Y1 = X.dot(2.) + 8. + 10. * np.random.randn(N, output1_size)`,
`Y2 = X.dot(3.) + 3. + 1. * np.random.randn(N, output2_size)`.
`X.dot(w)` with a scalar `w` is elementwise scaling; the final `+` of each
line is a NumPy broadcasting addition, so the result is an `Option`
(`none` would model a NumPy shape error, which the fixed sizes rule out).
The stream position is threaded explicitly; draws happen in source order:
`X`, then the `Y1` noise, then the `Y2` noise. -/
def gen_data (g : ℕ → ℝ) (k : ℕ) (N : ℕ) : Option ((Tensor2 × Tensor2 × Tensor2) × ℕ) :=
  let (X, k₁) := np_randn g k N input_size
  let (noise1, k₂) := np_randn g k₁ N output1_size
  let (noise2, k₃) := np_randn g k₂ N output2_size
  (tadd (saddT 8 (smulT 2 X)) (smulT 10 noise1)).bind fun Y1 =>
    (tadd (saddT 3 (smulT 3 X)) (smulT 1 noise2)).map fun Y2 =>
      ((X, Y1, Y2), k₃)

/-- NumPy fancy indexing `A[s]` with an index array acting on the rows. -/
def rowIndex (A : Tensor2) (s : ℕ → ℕ) : Tensor2 :=
  ⟨A.rows, A.cols, fun i j => A.entry (s i) j⟩

/-- The notebook's `shuffle_data`: `s = np.arange(X.shape[0])` followed by
`np.random.shuffle(s)` yields one random permutation of the row indices
(the shuffle is the external RNG collaborator, modelled as the explicitly
passed permutation `s`); all three arrays are then indexed by the same `s`. -/
def shuffle_data (s : Equiv.Perm ℕ) (X Y1 Y2 : Tensor2) :
    Tensor2 × Tensor2 × Tensor2 :=
  (rowIndex X s, rowIndex Y1 s, rowIndex Y2 s)

/-- The loss wrapper module of the notebook: it owns the task count and the
learnable `log_vars` parameter. -/
structure MultiTaskLossWrapper where
  num_tasks : ℕ
  log_vars : Tensor1

/-- Constructor of the wrapper, `MultiTaskLossWrapper.__init__`:
`self.log_vars = nn.Parameter(torch.zeros((num_tasks)))`. -/
def MultiTaskLossWrapper.init (num_tasks : ℕ) : MultiTaskLossWrapper :=
  ⟨num_tasks, torchZeros num_tasks⟩

/-- The wrapper's `forward(self, *X)`: it only returns
`self.log_vars, X` so the loss can be computed in the training loop. -/
def MultiTaskLossWrapper.forward (m : MultiTaskLossWrapper) (X : List Tensor2) :
    Tensor1 × List Tensor2 :=
  (m.log_vars, X)

/-- One term of the task loop:
`diff = (y_hat[i] - y[i])**2.` followed by
`torch.sum(precision * diff + log_vars[i], -1)`. -/
def taskTerm (lv : ℝ) (yh yt : Tensor2) : Option Tensor1 :=
  ((tsub yh yt).map tsq).map (fun d => sumLast (scaleAdd (precision lv) lv d))

/-- The task-summation loop of the training cell, processing the first `n`
task indices in order:
`loss = 0` then for each `i`, `loss += torch.sum(precision * diff + log_vars[i], -1)`.
The initial scalar `0` is the length-1 tensor, which broadcasts against
everything like the Python scalar does. -/
def lossAccum (log_vars : Tensor1) (y_hat y : List Tensor2) : ℕ → Option Tensor1
  | 0 => some ⟨1, fun _ => 0⟩
  | n + 1 =>
      (lossAccum log_vars y_hat y n).bind fun acc =>
        y_hat[n]?.bind fun yh =>
          y[n]?.bind fun yt =>
            (tidx log_vars n).bind fun lv =>
              (taskTerm lv yh yt).bind fun t => vaddB acc t

/-- The combined loss of one training step: the task loop over all
`len(y)` tasks followed by `loss = torch.mean(loss)`. -/
def trainingLoss (log_vars : Tensor1) (y_hat y : List Tensor2) : Option ℝ :=
  (lossAccum log_vars y_hat y y.length).map tmean

/-- The batch body as it sits inside the epoch loop: the epoch index `i`
is in scope when the body starts, but the task loop `for i in range(len(y))`
rebinds it, and nothing after the task loop reads it. -/
def epochBatchLoss (_epochIdx : ℕ) (log_vars : Tensor1) (y_hat y : List Tensor2) :
    Option ℝ :=
  trainingLoss log_vars y_hat y

/-- The combined loss as the specification words it: the mean over the
batch dimension (`b` examples) of the sum over tasks `i` of the sum over
output dimensions `j` of `exp(-log_var_i) * (prediction - target)^2 + log_var_i`. -/
def specCombinedLoss (log_vars : Tensor1) (y_hat y : List Tensor2) (b : ℕ) : ℝ :=
  (∑ k in Finset.range b,
    ∑ i in Finset.range y.length,
      ∑ j in Finset.range (y_hat.getD i default).cols,
        (Real.exp (-(log_vars.entry i)) *
            ((y_hat.getD i default).entry k j - (y.getD i default).entry k j) ^ 2 +
          log_vars.entry i)) / (b : ℝ)

/-! Basic lemmas about broadcasting. -/

theorem bdim_self (a : ℕ) : bdim a a = some a := by simp [bdim]

theorem bidx_of_lt {n i : ℕ} (h : i < n) : bidx n i = i := by
  unfold bidx
  rcases eq_or_ne n 1 with h1 | h1
  · subst h1
    have hi : i = 0 := by omega
    simp [hi]
  · simp [h1]

theorem bdim_one_left (b : ℕ) : bdim 1 b = some b := by
  rcases eq_or_ne b 1 with h | h
  · subst h; exact bdim_self 1
  · simp [bdim, Ne.symm h]

/-- One pass of the task loop on well-shaped inputs: `taskTerm` succeeds and
returns the length-`b` vector of per-example sums over the output
dimensions of `precision * (prediction - target)^2 + log_var`. -/
theorem taskTerm_spec (lv : ℝ) (yh yt : Tensor2) (b : ℕ)
    (hr : yh.rows = b) (hr' : yt.rows = b) (hc : yh.cols = yt.cols) :
    ∃ t, taskTerm lv yh yt = some t ∧ t.len = b ∧
      ∀ k, k < b → t.entry k =
        ∑ j in Finset.range yh.cols,
          (precision lv * (yh.entry k j - yt.entry k j) ^ 2 + lv) := by
  have hbr : bdim yh.rows yt.rows = some b := by rw [hr, hr']; exact bdim_self b
  have hbc : bdim yh.cols yt.cols = some yt.cols := by rw [hc]; exact bdim_self _
  refine ⟨⟨b, fun i => ∑ j in Finset.range yt.cols,
      (precision lv *
          (yh.entry (bidx yh.rows i) (bidx yh.cols j) -
            yt.entry (bidx yt.rows i) (bidx yt.cols j)) ^ 2 + lv)⟩, ?_, rfl, ?_⟩
  · simp only [taskTerm, tsub, bcast, hbr, hbc]
    simp only [Option.map_some']
    simp [tsq, scaleAdd, sumLast]
  · intro k hk
    show (∑ j in Finset.range yt.cols,
        (precision lv *
            (yh.entry (bidx yh.rows k) (bidx yh.cols j) -
              yt.entry (bidx yt.rows k) (bidx yt.cols j)) ^ 2 + lv)) = _
    rw [hc]
    refine Finset.sum_congr rfl ?_
    intro j hj
    rw [Finset.mem_range] at hj
    rw [hr, hr', bidx_of_lt hk, bidx_of_lt hj]

theorem getElem?_getD {α : Type} [Inhabited α] (l : List α) (n : ℕ) (h : n < l.length) :
    l[n]? = some (l.getD n default) := by
  rw [List.getElem?_eq_getElem h, List.getD_eq_getElem l default h]

/-- The task loop's accumulator after processing the first `n ≥ 1` tasks on
well-shaped inputs: a length-`b` tensor whose `k`-th entry is the sum over
the first `n` tasks of the per-example loss of example `k`. -/
theorem lossAccum_spec (log_vars : Tensor1) (y_hat y : List Tensor2) (b : ℕ)
    (hlen : y_hat.length = y.length)
    (hlv : y.length ≤ log_vars.len)
    (hsh : ∀ i, i < y.length →
      (y_hat.getD i default).rows = b ∧ (y.getD i default).rows = b ∧
        (y_hat.getD i default).cols = (y.getD i default).cols)
    (n : ℕ) (hn1 : 1 ≤ n) :
    n ≤ y.length →
    ∃ t, lossAccum log_vars y_hat y n = some t ∧ t.len = b ∧
      ∀ k, k < b → t.entry k =
        ∑ i in Finset.range n,
          ∑ j in Finset.range (y_hat.getD i default).cols,
            (precision (log_vars.entry i) *
                ((y_hat.getD i default).entry k j - (y.getD i default).entry k j) ^ 2 +
              log_vars.entry i) := by
  induction n, hn1 using Nat.le_induction with
  | base =>
      intro hn
      obtain ⟨hr1, hr2, hcc⟩ := hsh 0 hn
      obtain ⟨t0, ht0, ht0len, ht0e⟩ :=
        taskTerm_spec (log_vars.entry 0) (y_hat.getD 0 default) (y.getD 0 default) b hr1 hr2 hcc
      have hyh : y_hat[0]? = some (y_hat.getD 0 default) :=
        getElem?_getD y_hat 0 (by omega)
      have hyt : y[0]? = some (y.getD 0 default) :=
        getElem?_getD y 0 (by omega)
      have hlv0 : tidx log_vars 0 = some (log_vars.entry 0) := by
        unfold tidx
        rw [if_pos (by omega : 0 < log_vars.len)]
      have hsc : bdim (1 : ℕ) t0.len = some b := by rw [ht0len]; exact bdim_one_left b
      refine ⟨⟨b, fun i =>
        (⟨1, fun _ => (0 : ℝ)⟩ : Tensor1).entry (bidx 1 i) + t0.entry (bidx t0.len i)⟩,
        ?_, rfl, ?_⟩
      · rw [show (1 : ℕ) = 0 + 1 from rfl]
        simp only [lossAccum, Option.some_bind, hyh, hyt, hlv0, ht0, vaddB, hsc]
      · intro k hk
        show (⟨1, fun _ => (0 : ℝ)⟩ : Tensor1).entry (bidx 1 k) + t0.entry (bidx t0.len k) = _
        rw [ht0len, bidx_of_lt hk, ht0e k hk, Finset.sum_range_one]
        show (0 : ℝ) + _ = _
        rw [zero_add]
  | succ n hn1 ih =>
      intro hn
      obtain ⟨t, ht, htlen, hte⟩ := ih (by omega)
      obtain ⟨hr1, hr2, hcc⟩ := hsh n (by omega)
      obtain ⟨tn, htn, htnlen, htne⟩ :=
        taskTerm_spec (log_vars.entry n) (y_hat.getD n default) (y.getD n default) b hr1 hr2 hcc
      have hyh : y_hat[n]? = some (y_hat.getD n default) :=
        getElem?_getD y_hat n (by omega)
      have hyt : y[n]? = some (y.getD n default) :=
        getElem?_getD y n (by omega)
      have hlvn : tidx log_vars n = some (log_vars.entry n) := by
        unfold tidx
        rw [if_pos (by omega : n < log_vars.len)]
      have hsc : bdim t.len tn.len = some b := by rw [htlen, htnlen]; exact bdim_self b
      refine ⟨⟨b, fun i => t.entry (bidx t.len i) + tn.entry (bidx tn.len i)⟩, ?_, rfl, ?_⟩
      · simp only [lossAccum, ht, Option.some_bind, hyh, hyt, hlvn, htn, vaddB, hsc]
      · intro k hk
        show t.entry (bidx t.len k) + tn.entry (bidx tn.len k) = _
        rw [htlen, htnlen, bidx_of_lt hk, hte k hk, htne k hk, Finset.sum_range_succ]

/-! The simple claims. -/

/-- C4: the derived weight `precision_i = exp(-log_var_i)` is strictly
positive for every (finite) real value of the log-variance; in the real
model every value is finite. -/
theorem precision_pos (lv : ℝ) : 0 < precision lv :=
  Real.exp_pos (-lv)

/-- C6: constructing the wrapper with `num_tasks = T` creates a `log_vars`
parameter of length exactly `T`, every entry is `0`, and hence the initial
precision of every task is `exp (-0) = 1`. -/
theorem init_log_vars_zero (T : ℕ) :
    (MultiTaskLossWrapper.init T).log_vars.len = T ∧
      ∀ i, i < T →
        (MultiTaskLossWrapper.init T).log_vars.entry i = 0 ∧
          precision ((MultiTaskLossWrapper.init T).log_vars.entry i) = 1 := by
  refine ⟨rfl, fun i _ => ⟨rfl, ?_⟩⟩
  simp [MultiTaskLossWrapper.init, torchZeros, precision]

/-- Witness for C6 at `T = 2`, the wrapper instance the notebook builds. -/
theorem init_log_vars_zero_witness :
    (MultiTaskLossWrapper.init 2).log_vars.len = 2 ∧
      (MultiTaskLossWrapper.init 2).log_vars.entry 0 = 0 ∧
        precision ((MultiTaskLossWrapper.init 2).log_vars.entry 0) = 1 :=
  ⟨(init_log_vars_zero 2).1,
    ((init_log_vars_zero 2).2 0 (by norm_num)).1,
    ((init_log_vars_zero 2).2 0 (by norm_num)).2⟩

/-- C10: `forward` is a pure pass-through: it returns the pair
`(log_vars, X)` with the prediction tensors unchanged and the stored
`log_vars` parameter unmodified; it computes no loss and mutates nothing
(the wrapper value itself is untouched). -/
theorem forward_passthrough (m : MultiTaskLossWrapper) (X : List Tensor2) :
    m.forward X = (m.log_vars, X) := rfl

/-- C1: for every number of tasks, every `log_var` vector covering them, and
every pair of matching-shape prediction/target lists with batch size `b`,
the training loop's combined loss equals the mean over the batch dimension
of the sum over tasks of the sum over output dimensions of
`exp(-log_var_i) * (prediction - target)^2 + log_var_i`. -/
theorem trainingLoss_eq_specCombinedLoss (log_vars : Tensor1) (y_hat y : List Tensor2)
    (b : ℕ)
    (hlen : y_hat.length = y.length)
    (hlv : y.length ≤ log_vars.len)
    (hsh : ∀ i, i < y.length →
      (y_hat.getD i default).rows = b ∧ (y.getD i default).rows = b ∧
        (y_hat.getD i default).cols = (y.getD i default).cols) :
    trainingLoss log_vars y_hat y = some (specCombinedLoss log_vars y_hat y b) := by
  rcases Nat.eq_zero_or_pos y.length with h0 | hpos
  · simp only [trainingLoss, h0, lossAccum, Option.map_some']
    congr 1
    simp [tmean, specCombinedLoss, h0]
  · obtain ⟨t, ht, htlen, hte⟩ :=
      lossAccum_spec log_vars y_hat y b hlen hlv hsh y.length hpos le_rfl
    simp only [trainingLoss, ht, Option.map_some']
    congr 1
    rw [tmean, htlen, specCombinedLoss]
    congr 1
    refine Finset.sum_congr rfl ?_
    intro k hk
    rw [Finset.mem_range] at hk
    rw [hte k hk]
    rfl

/-- Witness for C1: the spec's scenario test.  With `log_var = [0, 0]` (the
initial state), a single task, a single example, prediction `5.0` and
target `3.0`, the combined loss is exactly `4.0`. -/
theorem trainingLoss_eq_specCombinedLoss_witness :
    trainingLoss ⟨2, fun _ => 0⟩ [⟨1, 1, fun _ _ => 5⟩] [⟨1, 1, fun _ _ => 3⟩] =
      some 4 := by
  have h := trainingLoss_eq_specCombinedLoss ⟨2, fun _ => 0⟩
    [⟨1, 1, fun _ _ => 5⟩] [⟨1, 1, fun _ _ => 3⟩] 1
    rfl (by norm_num)
    (by
      intro i hi
      have hi0 : i = 0 := by
        simp only [List.length_singleton] at hi
        omega
      subst hi0
      exact ⟨rfl, rfl, rfl⟩)
  rw [h]
  congr 1
  simp [specCombinedLoss, List.getD, tmean, Real.exp_zero]
  norm_num

/-- C3: `gen_data` succeeds and returns `(X, Y1, Y2)` where `X` consists of
the first `N * input_size` fresh draws of the random source,
`Y1 = 2 * X + 8 + 10 * noise1` and `Y2 = 3 * X + 3 + 1 * noise2`, with
`noise1` and `noise2` taken from disjoint, consecutive segments of the
stream after `X` (the model's rendering of independent i.i.d. draws) of
shapes `(N, output1_size)` and `(N, output2_size)`. -/
theorem gen_data_spec (g : ℕ → ℝ) (k N : ℕ) :
    ∃ X Y1 Y2 k',
      gen_data g k N = some ((X, Y1, Y2), k') ∧
      X.rows = N ∧ X.cols = input_size ∧
      Y1.rows = N ∧ Y1.cols = output1_size ∧
      Y2.rows = N ∧ Y2.cols = output2_size ∧
      (∀ i j, i < N → j < input_size → X.entry i j = g (k + i * input_size + j)) ∧
      (∀ i j, i < N → j < output1_size →
        Y1.entry i j = 2 * X.entry i j + 8 +
          10 * g (k + N * input_size + i * output1_size + j)) ∧
      (∀ i j, i < N → j < output2_size →
        Y2.entry i j = 3 * X.entry i j + 3 +
          1 * g (k + N * input_size + N * output1_size + i * output2_size + j)) ∧
      k' = k + N * input_size + N * output1_size + N * output2_size := by
  refine ⟨⟨N, 1, fun i j => g (k + i * 1 + j)⟩,
    ⟨N, 1, fun i j =>
      2 * g (k + bidx N i * 1 + bidx 1 j) + 8 +
        10 * g (k + N * 1 + bidx N i * 1 + bidx 1 j)⟩,
    ⟨N, 1, fun i j =>
      3 * g (k + bidx N i * 1 + bidx 1 j) + 3 +
        1 * g (k + N * 1 + N * 1 + bidx N i * 1 + bidx 1 j)⟩,
    k + N * 1 + N * 1 + N * 1, ?_, rfl, rfl, rfl, rfl, rfl, rfl, ?_, ?_, ?_, ?_⟩
  · simp only [gen_data, np_randn, tadd, bcast, smulT, saddT, input_size, output1_size,
      output2_size, bdim_self]
    rfl
  · intro i j hi hj
    simp [input_size]
  · intro i j hi hj
    have hj0 : j = 0 := by
      simp only [output1_size] at hj; omega
    subst hj0
    simp only [bidx_of_lt hi]
    simp [bidx, input_size, output1_size]
  · intro i j hi hj
    have hj0 : j = 0 := by
      simp only [output2_size] at hj; omega
    subst hj0
    simp only [bidx_of_lt hi]
    simp [bidx, input_size, output1_size, output2_size]
  · simp [input_size, output1_size, output2_size]

/-- Witness for C3 at a concrete stream and `N = 1`. -/
theorem gen_data_spec_witness :
    ∃ X Y1 Y2 k',
      gen_data (fun n => (n : ℝ)) 0 1 = some ((X, Y1, Y2), k') ∧
      X.rows = 1 ∧ X.cols = input_size ∧
      Y1.rows = 1 ∧ Y1.cols = output1_size ∧
      Y2.rows = 1 ∧ Y2.cols = output2_size ∧
      (∀ i j, i < 1 → j < input_size →
        X.entry i j = ((0 + i * input_size + j : ℕ) : ℝ)) ∧
      (∀ i j, i < 1 → j < output1_size →
        Y1.entry i j = 2 * X.entry i j + 8 +
          10 * ((0 + 1 * input_size + i * output1_size + j : ℕ) : ℝ)) ∧
      (∀ i j, i < 1 → j < output2_size →
        Y2.entry i j = 3 * X.entry i j + 3 +
          1 * ((0 + 1 * input_size + 1 * output1_size + i * output2_size + j : ℕ) : ℝ)) ∧
      k' = 0 + 1 * input_size + 1 * output1_size + 1 * output2_size :=
  gen_data_spec (fun n => (n : ℝ)) 0 1

/-- C7: the data generator is a deterministic function of the sample count
and the random-source state: two runs from identical stream contents and
identical stream position return identical `(X, Y1, Y2)` results. -/
theorem gen_data_reproducible (g₁ g₂ : ℕ → ℝ) (k₁ k₂ N : ℕ)
    (hg : ∀ n, g₁ n = g₂ n) (hk : k₁ = k₂) :
    gen_data g₁ k₁ N = gen_data g₂ k₂ N := by
  have h : g₁ = g₂ := funext hg
  rw [h, hk]

/-- Witness for C7 at a concrete stream, position and sample count. -/
theorem gen_data_reproducible_witness :
    gen_data (fun n => (n : ℝ)) 0 3 = gen_data (fun n => (n : ℝ)) 0 3 :=
  gen_data_reproducible (fun n => (n : ℝ)) (fun n => (n : ℝ)) 0 0 3 (fun _ => rfl) rfl

/-- C5: `shuffle_data` applies one single shared permutation to the rows of
all three arrays: every output row `k` of each array is the corresponding
input row `σ k`, with the same `σ` for `X`, `Y1` and `Y2`, so row triples
stay aligned. -/
theorem shuffle_data_shared_perm (s : Equiv.Perm ℕ) (X Y1 Y2 : Tensor2) :
    ∃ σ : Equiv.Perm ℕ,
      shuffle_data s X Y1 Y2 = (rowIndex X σ, rowIndex Y1 σ, rowIndex Y2 σ) ∧
      ∀ k j,
        (shuffle_data s X Y1 Y2).1.entry k j = X.entry (σ k) j ∧
          (shuffle_data s X Y1 Y2).2.1.entry k j = Y1.entry (σ k) j ∧
          (shuffle_data s X Y1 Y2).2.2.entry k j = Y2.entry (σ k) j :=
  ⟨s, rfl, fun _ _ => ⟨rfl, rfl, rfl⟩⟩

/-- Counterexample to C2: at the spec's own shape-validation input — one
task with a prediction of shape `(20, 1)` against a target of shape
`(20, 2)`, constant entries `5` and `3`, `log_var = [0]` — the loss
combiner does not reject at call time: it silently broadcasts the
prediction across the target's second dimension and returns the combined
loss `8` (each of the `20` examples contributes `(5-3)^2` in each of the
`2` broadcast columns). -/
theorem combiner_broadcasts_20x1_vs_20x2 :
    trainingLoss ⟨1, fun _ => 0⟩ [⟨20, 1, fun _ _ => 5⟩] [⟨20, 2, fun _ _ => 3⟩] =
      some 8 := by
  simp only [trainingLoss, List.length_singleton, lossAccum, Option.some_bind,
    List.getElem?_cons_zero, tidx, taskTerm, tsub, bcast, bdim, tsq, scaleAdd, sumLast,
    vaddB, bidx, precision, tmean]
  norm_num [Real.exp_zero, Finset.sum_const]
  norm_num [tsq, tmean, Finset.sum_const]

/-- C2 amended: for every input where the task's prediction tensor has
shape `(20, 1)` and its target tensor has shape `(20, 2)` — any entries,
any `log_var` value — the loss combiner does not fail: the sizes `1` and
`2` are broadcast-compatible, so it silently computes a result. -/
theorem combiner_computes_on_20x1_vs_20x2 (f g : ℕ → ℕ → ℝ) (lv : ℝ) :
    (trainingLoss ⟨1, fun _ => lv⟩ [⟨20, 1, f⟩] [⟨20, 2, g⟩]).isSome = true := by
  simp only [trainingLoss, List.length_singleton, lossAccum, Option.some_bind,
    List.getElem?_cons_zero, tidx, taskTerm, tsub, bcast, bdim, tsq, scaleAdd, sumLast,
    vaddB, bidx]
  norm_num
  norm_num [tsq]

/-- C8: the batch loss computed inside the epoch loop does not depend on
the epoch index: the inner task loop rebinds the loop variable `i`, so two
epochs given the same batch data and the same `log_vars` produce the same
loss value. -/
theorem epochBatchLoss_epoch_independent
    (e₁ e₂ : ℕ) (log_vars : Tensor1) (y_hat y : List Tensor2) :
    epochBatchLoss e₁ log_vars y_hat y = epochBatchLoss e₂ log_vars y_hat y := rfl

end
